import Mathlib

set_option maxRecDepth 8000

/-!
# Verification of the supernote-companion `.note` → PDF conversion pipeline

Shallow embedding of `src/api/note-parser.ts`: the RATTA_RLE run-length
decoder, the layer compositor, the `.note` file validator, the metadata
block resolver, and the PDF emitter, together with theorems settling the
specification claims about them.

Bytes are modelled as `Nat` (values of a `Uint8Array` are 0..255; the
operations used — `% 128` for `& 0x7F`, `Nat.testBit · 7` for `& 0x80` —
agree with the JavaScript bitwise operators on all byte values).
JavaScript numbers that can be negative (parsed addresses) are modelled
as `Int`.  Fallible reader operations return `Except String`.
-/

namespace NoteParser

/-! ## RATTA_RLE run-length decoder (`decodeRLE`, note-parser.ts:270-332)

The decoder walks the input two bytes at a time `(colorCode, lengthCode)`,
with a `holder` for a pending escape pair.  `decodeRLEruns` is the main
`while` loop: it returns the emitted pixels together with the holder state
left when the input runs out.  `decodeRLEraw` adds the trailing-holder
flush (capped by the remaining capacity), i.e. the decompressed output
before padding/truncation.  `decodeRLE` pads with `0x62` (transparent) or
truncates to exactly `width * height`. -/

/-- The decode loop of `decodeRLE`: processes `(colorCode, lengthCode)`
pairs with a pending-escape `holder`; a final unpaired byte is ignored
(the loop breaks when `i + 1 >= length`).  Returns the emitted pixels and
the final holder. -/
def decodeRLEruns : Option (Nat × Nat) → List Nat → List Nat × Option (Nat × Nat)
  | holder, c :: l :: rest =>
    match holder with
    | some (pc, pl) =>
      if c = pc then
        -- same color on both sides of the escape: extended run length
        let n := 1 + l + ((pl % 128 + 1) * 128)
        let r := decodeRLEruns none rest
        (List.replicate n c ++ r.1, r.2)
      else
        -- color changed: flush the held pair, then an ordinary run
        let held := (pl % 128 + 1) * 128
        let r := decodeRLEruns none rest
        (List.replicate held pc ++ (List.replicate (l + 1) c ++ r.1), r.2)
    | none =>
      if l = 0xff then
        let r := decodeRLEruns none rest
        (List.replicate 0x4000 c ++ r.1, r.2)
      else if Nat.testBit l 7 then
        -- high bit set: hold this pair, emit nothing yet
        decodeRLEruns (some (c, l)) rest
      else
        let r := decodeRLEruns none rest
        (List.replicate (l + 1) c ++ r.1, r.2)
  | holder, _ => ([], holder)

/-- The decompressed output before padding/truncation: the loop output
plus the flush of a still-held pair, capped at the remaining capacity
(`expectedLen - currentOutputLength`, which in JavaScript can be negative,
making the flush loop run zero times — matched here by truncated `Nat`
subtraction). -/
def decodeRLEraw (data : List Nat) (expectedLen : Nat) : List Nat :=
  let r := decodeRLEruns none data
  match r.2 with
  | some (c, l) =>
      r.1 ++ List.replicate (min ((l % 128 + 1) * 128) (expectedLen - r.1.length)) c
  | none => r.1

/-- Function `decodeRLE`: decode, then pad with `0x62` up to `width * height`
pixels if short, truncate if long. -/
def decodeRLE (data : List Nat) (width height : Nat) : List Nat :=
  let expectedLen := width * height
  let out := decodeRLEraw data expectedLen
  out.take expectedLen ++ List.replicate (expectedLen - out.length) 0x62

/-! ## Color resolution and compositing (`toRGBA`, `renderPage`,
note-parser.ts:337-479)

A canvas is a flat `List Nat` of RGBA bytes, 4 per pixel, written pixel by
pixel in ascending order (`buildPixels`).  The JavaScript loops mutate the
canvas in place, but each pixel's new value depends only on the old value
of that same pixel, so rebuilding the list pixel by pixel is faithful.
The fractional alpha-blend branch uses exact rational arithmetic with
round-half-up as the idealisation of the JavaScript double arithmetic
(`Math.round(src * a/255 + dst * (1 - a/255))`); no claim proved here
depends on values produced by that branch. -/

/-- Function `toRGBA` (note-parser.ts:337): map a Supernote color code to RGBA. -/
def toRGBA (p : Nat) : Nat × Nat × Nat × Nat :=
  if p = 0x61 then (0, 0, 0, 255)              -- black
  else if p = 0x65 then (255, 255, 255, 255)   -- white
  else if p = 0x62 then (0, 0, 0, 0)           -- transparent
  else if p = 0x63 ∨ p = 0x9d ∨ p = 0x9e then (0x9d, 0x9d, 0x9d, 255)
  else if p = 0x64 ∨ p = 0xc9 ∨ p = 0xca then (0xc9, 0xc9, 0xc9, 255)
  else (p, p, p, 255)                          -- grayscale intensity

/-- Concatenate the 4-byte pixel blocks `f 0, f 1, ..., f (n-1)`. -/
def buildPixels (f : Nat → List Nat) : Nat → List Nat
  | 0 => []
  | n + 1 => buildPixels f n ++ f n

/-- The old RGBA value of pixel `i` on the canvas. -/
def oldPixel (canvas : List Nat) (i : Nat) : List Nat :=
  [canvas.getD (4 * i) 0, canvas.getD (4 * i + 1) 0,
   canvas.getD (4 * i + 2) 0, canvas.getD (4 * i + 3) 0]

/-- One alpha-blended channel:
`Math.round(src * alpha + dst * invAlpha)` with `alpha = a / 255`.
For byte inputs the exact value is `(src * a + dst * (255 - a)) / 255`,
non-negative, and `Math.round` is round-half-up, i.e.
`⌊(2 * (src * a + dst * (255 - a)) + 255) / 510⌋` in integer arithmetic. -/
def blendChannel (src dst a : Nat) : Nat :=
  (2 * (src * a + dst * (255 - a)) + 255) / 510

/-- New value of pixel `i` when compositing a RATTA_RLE layer
(note-parser.ts:421-440): resolve the color code through `toRGBA`, then
skip / overwrite / blend on the alpha (the blend branch leaves the canvas
alpha untouched). -/
def rlePixel (canvas layerPixels : List Nat) (i : Nat) : List Nat :=
  let q := toRGBA (layerPixels.getD i 0)
  if q.2.2.2 = 0 then oldPixel canvas i
  else if q.2.2.2 = 255 then [q.1, q.2.1, q.2.2.1, 255]
  else [blendChannel q.1 (canvas.getD (4 * i) 0) q.2.2.2,
        blendChannel q.2.1 (canvas.getD (4 * i + 1) 0) q.2.2.2,
        blendChannel q.2.2.1 (canvas.getD (4 * i + 2) 0) q.2.2.2,
        canvas.getD (4 * i + 3) 0]

/-- New value of pixel `i` when compositing an RGBA layer
(the PNG branch, note-parser.ts:447-470): the layer already carries RGBA
bytes; skip / overwrite / blend on its alpha byte. -/
def pngPixel (canvas layerPixels : List Nat) (i : Nat) : List Nat :=
  let a := layerPixels.getD (4 * i + 3) 0
  if a = 0 then oldPixel canvas i
  else
    let r := layerPixels.getD (4 * i) 0
    let g := layerPixels.getD (4 * i + 1) 0
    let b := layerPixels.getD (4 * i + 2) 0
    if a = 255 then [r, g, b, 255]
    else [blendChannel r (canvas.getD (4 * i) 0) a,
          blendChannel g (canvas.getD (4 * i + 1) 0) a,
          blendChannel b (canvas.getD (4 * i + 2) 0) a,
          canvas.getD (4 * i + 3) 0]

/-- Composite a decoded RATTA_RLE layer onto the canvas. -/
def compositeRLE (canvas layerPixels : List Nat) (n : Nat) : List Nat :=
  buildPixels (rlePixel canvas layerPixels) n

/-- Composite an RGBA (PNG) layer onto the canvas. -/
def compositePNG (canvas layerPixels : List Nat) (n : Nat) : List Nat :=
  buildPixels (pngPixel canvas layerPixels) n

/-- A layer entry as produced by `parseNotebook`: the bitmap address comes
from `parseInt` and is modelled as `Int` (it can be negative). -/
structure Layer where
  key : String
  protocol : String
  bitmapAddress : Int
deriving DecidableEq, Repr

/-- A page: its metadata address and resolved layer list. -/
structure Page where
  addr : Int
  layers : List Layer
deriving DecidableEq, Repr

/-- The little-endian 32-bit value at a position. -/
def u32le (data : List Nat) (pos : Nat) : Nat :=
  data.getD pos 0 + 256 * (data.getD (pos + 1) 0 +
    256 * (data.getD (pos + 2) 0 + 256 * data.getD (pos + 3) 0))

/-- Operation `BinaryReader.readU32LE` at an absolute position (bounds-checked,
little endian). -/
def readU32E (data : List Nat) (pos : Nat) : Except String Nat :=
  if pos + 4 ≤ data.length then .ok (u32le data pos)
  else
    .error ("Read U32 out of bounds: pos=" ++ Nat.repr pos ++
            ", fileLength=" ++ Nat.repr data.length)

/-- Operation `BinaryReader.readBytes` at an absolute position (bounds-checked). -/
def readBytesE (data : List Nat) (pos len : Nat) : Except String (List Nat) :=
  if pos + len ≤ data.length then .ok ((data.drop pos).take len)
  else
    .error ("Read bytes out of bounds: pos=" ++ Nat.repr pos ++
            ", length=" ++ Nat.repr len ++ ", fileLength=" ++ Nat.repr data.length)

/-- Process one layer of `renderPage` (note-parser.ts:408-476): skip a
zero bitmap address; seek to the address (error if out of bounds), read
the 4-byte block length and the block bytes (errors if out of bounds);
then dispatch on the protocol tag — RATTA_RLE and PNG composite onto the
canvas, an unknown protocol logs a diagnostic and leaves the canvas
untouched.  The PNG decoding collaborator (`decodePNG`, a browser
capability external to this code) is a parameter; `none` models its soft
failure, after which the layer is skipped. -/
def processLayer (png : List Nat → Nat → Nat → Option (List Nat))
    (data : List Nat) (w h : Nat) (canvas : List Nat) (layer : Layer) :
    Except String (List Nat) :=
  if layer.bitmapAddress = 0 then .ok canvas
  else if layer.bitmapAddress < 0 ∨ (data.length : Int) < layer.bitmapAddress then
    .error ("Seek out of bounds: pos=" ++ toString layer.bitmapAddress ++
            ", fileLength=" ++ Nat.repr data.length)
  else
    match readU32E data layer.bitmapAddress.toNat with
    | .error e => .error e
    | .ok blockLen =>
      match readBytesE data (layer.bitmapAddress.toNat + 4) blockLen with
      | .error e => .error e
      | .ok compressedData =>
        if layer.protocol = "RATTA_RLE" then
          .ok (compositeRLE canvas (decodeRLE compressedData w h) (w * h))
        else if layer.protocol = "PNG" then
          match png compressedData w h with
          | some lp => .ok (compositePNG canvas lp (w * h))
          | none => .ok canvas
        else
          .ok canvas

/-- The initial canvas of `renderPage`: fully opaque white. -/
def initialCanvas (w h : Nat) : List Nat :=
  buildPixels (fun _ => [255, 255, 255, 255]) (w * h)

/-- The layer loop of `renderPage`: process each layer in order, an
error (a thrown reader exception) aborting the loop. -/
def renderLayers (png : List Nat → Nat → Nat → Option (List Nat))
    (data : List Nat) (w h : Nat) : List Nat → List Layer → Except String (List Nat)
  | canvas, [] => .ok canvas
  | canvas, layer :: rest =>
    match processLayer png data w h canvas layer with
    | .error e => .error e
    | .ok canvas' => renderLayers png data w h canvas' rest

/-- Function `renderPage` (note-parser.ts:393-479): start from a white canvas and
fold the page's layers over it. -/
def renderPage (png : List Nat → Nat → Nat → Option (List Nat))
    (data : List Nat) (page : Page) (w h : Nat) : Except String (List Nat) :=
  renderLayers png data w h (initialCanvas w h) page.layers

/-! ## Text decoding (`new TextDecoder().decode(...)`)

`BinaryReader.readString` decodes raw bytes with the WHATWG UTF-8 decoder
(`TextDecoder`, not fatal): malformed sequences produce U+FFFD, an
invalid byte after a lead byte is reprocessed as a fresh sequence, and a
truncated sequence at end of input produces a single U+FFFD. -/

/-- Is `b` a UTF-8 continuation byte in `[lo, hi]`? -/
def contIn (lo hi b : Nat) : Bool := lo ≤ b ∧ b ≤ hi

/-- The replacement character U+FFFD. -/
def replChar : Char := Char.ofNat 0xFFFD

/-- WHATWG UTF-8 decode with replacement (the `TextDecoder` default). -/
def decodeUTF8 : List Nat → List Char
  | [] => []
  | b :: bs =>
    if b ≤ 0x7F then Char.ofNat b :: decodeUTF8 bs
    else if b < 0xC2 then replChar :: decodeUTF8 bs
    else if b ≤ 0xDF then
      match bs with
      | [] => [replChar]
      | b2 :: bs2 =>
        if contIn 0x80 0xBF b2 then
          Char.ofNat ((b - 0xC0) * 64 + (b2 - 0x80)) :: decodeUTF8 bs2
        else replChar :: decodeUTF8 (b2 :: bs2)
    else if b ≤ 0xEF then
      let lo := if b = 0xE0 then 0xA0 else 0x80
      let hi := if b = 0xED then 0x9F else 0xBF
      match bs with
      | [] => [replChar]
      | b2 :: bs2 =>
        if contIn lo hi b2 then
          match bs2 with
          | [] => [replChar]
          | b3 :: bs3 =>
            if contIn 0x80 0xBF b3 then
              Char.ofNat ((b - 0xE0) * 4096 + (b2 - 0x80) * 64 + (b3 - 0x80)) ::
                decodeUTF8 bs3
            else replChar :: decodeUTF8 (b3 :: bs3)
        else replChar :: decodeUTF8 (b2 :: bs2)
    else if b ≤ 0xF4 then
      let lo := if b = 0xF0 then 0x90 else 0x80
      let hi := if b = 0xF4 then 0x8F else 0xBF
      match bs with
      | [] => [replChar]
      | b2 :: bs2 =>
        if contIn lo hi b2 then
          match bs2 with
          | [] => [replChar]
          | b3 :: bs3 =>
            if contIn 0x80 0xBF b3 then
              match bs3 with
              | [] => [replChar]
              | b4 :: bs4 =>
                if contIn 0x80 0xBF b4 then
                  Char.ofNat ((b - 0xF0) * 262144 + (b2 - 0x80) * 4096 +
                      (b3 - 0x80) * 64 + (b4 - 0x80)) :: decodeUTF8 bs4
                else replChar :: decodeUTF8 (b4 :: bs4)
            else replChar :: decodeUTF8 (b3 :: bs3)
        else replChar :: decodeUTF8 (b2 :: bs2)
    else replChar :: decodeUTF8 bs

/-- Operation `BinaryReader.readString`: read bytes, decode as UTF-8 text. -/
def readStringE (data : List Nat) (pos len : Nat) : Except String String :=
  (readBytesE data pos len).map (fun bs => String.mk (decodeUTF8 bs))

/-! ## File validation (`validateNoteFile`, note-parser.ts:121-144) -/

/-- The three recognized signature prefixes (note-parser.ts:21-25). -/
def VALID_SIGNATURE_PREFIXES : List String :=
  ["noteSN_FILE_VER_", "SN_FILE_VER_", "SN_FILE_ASA_"]

/-- JavaScript `String.prototype.startsWith`.  JS compares UTF-16 code
units; for the ASCII needles used here this agrees with comparing the
character lists. -/
def jsStartsWith (s p : String) : Bool := p.data.isPrefixOf s.data

/-- Is `needle` a contiguous infix of the list? -/
def listInfix (needle : List Char) : List Char → Bool
  | [] => needle.isEmpty
  | x :: xs => needle.isPrefixOf (x :: xs) || listInfix needle xs

/-- JavaScript `String.prototype.includes`, for ASCII needles. -/
def jsIncludes (s needle : String) : Bool := listInfix needle.data s.data

/-- JavaScript `String.prototype.toLowerCase`, restricted to the ASCII
case mapping (sufficient for the ASCII needles it feeds here). -/
def jsToLower (s : String) : String := s.map Char.toLower

/-- Function `getSignature` (note-parser.ts:184-187): seek to 4, read 20 bytes as
text. -/
def getSignatureE (data : List Nat) : Except String String :=
  if 4 ≤ data.length then readStringE data 4 20
  else .error ("Seek out of bounds: pos=4, fileLength=" ++ Nat.repr data.length)

def emptyFileMsg : String := "File is empty (0 bytes) - download may have failed"

def tooSmallMsg (n : Nat) : String :=
  "File is too small (" ++ Nat.repr n ++ " bytes) - may be corrupted or not a .note file"

def htmlMsg : String :=
  "Downloaded HTML instead of .note file - device may have returned an error page"

def invalidSigMsg (signature : String) : String :=
  "Invalid .note file signature: \"" ++ String.mk (signature.data.take 20) ++
  "\" - file may not be a Supernote note"

/-- Function `validateNoteFile` (note-parser.ts:121-144): reject empty buffers,
buffers under 100 bytes, and buffers whose 20-byte signature (at offset 4)
does not start with a recognized prefix; in the last case a markup-looking
first 50 bytes selects the HTML-specific message. -/
def validateNoteFile (data : List Nat) : Except String Unit :=
  if data.length = 0 then .error emptyFileMsg
  else if data.length < 100 then .error (tooSmallMsg data.length)
  else
    match getSignatureE data with
    | .error e => .error e
    | .ok signature =>
      if VALID_SIGNATURE_PREFIXES.any (fun p => jsStartsWith signature p) then .ok ()
      else
        let firstBytes := String.mk (decodeUTF8 (data.take (min 50 data.length)))
        let lower := jsToLower firstBytes
        if jsIncludes lower "<!doctype" ∨ jsIncludes lower "<html" then .error htmlMsg
        else .error (invalidSigMsg signature)

/-- Does the 20-byte signature area (bytes 4-23) start with a recognized
prefix?  This is the condition `validateNoteFile` tests once the size gate
has passed. -/
def signatureValid (data : List Nat) : Bool :=
  VALID_SIGNATURE_PREFIXES.any
    (fun p => jsStartsWith (String.mk (decodeUTF8 ((data.drop 4).take 20))) p)

/-- A minimal well-formed 100-byte buffer carrying a recognized
signature, used as a concrete accepted input. -/
def goodNoteFile : List Nat :=
  List.replicate 4 0 ++ (String.toList "SN_FILE_VER_20230015").map Char.toNat ++
    List.replicate 76 0

/-! ## Metadata block resolution (`parseMetadataBlock`,
note-parser.ts:149-179)

The regex `/<([^:]+?):([^>]*?)>/g` is executed repeatedly.  With its lazy
quantifiers a match starting at a `<` takes the key up to the *first*
following `:` (which must not be immediately after the `<`), the value up
to the *first* following `>`, and scanning resumes after that `>`; if no
match starts at a position the engine advances one character.
`reMatches` implements exactly that advance-or-match scan. -/

/-- Split a character list at the first occurrence of `c`:
`splitAtFirstChar c l = some (before, after)` with
`l = before ++ c :: after` when `c` occurs, `none` otherwise. -/
def splitAtFirstChar (c : Char) : List Char → Option (List Char × List Char)
  | [] => none
  | x :: xs =>
    if x = c then some ([], xs)
    else
      match splitAtFirstChar c xs with
      | some (a, b) => some (x :: a, b)
      | none => none

/-- The advance-or-match scan of `/<([^:]+?):([^>]*?)>/g`, with a fuel
argument for structural recursion.  Every step consumes at least one
character (a failed start advances one position; a match resumes after
its closing `>`), so fuel equal to the text length — as supplied by
`reMatches` — is always sufficient and the fuel-exhausted branch is
unreachable. -/
def reMatchesAux : Nat → List Char → List (String × String)
  | 0, _ => []
  | _, [] => []
  | fuel + 1, c :: rest =>
    if c = '<' then
      match splitAtFirstChar ':' rest with
      | some (key, afterColon) =>
        if key = [] then reMatchesAux fuel rest
        else
          match splitAtFirstChar '>' afterColon with
          | some (val, afterGt) =>
            (String.mk key, String.mk val) :: reMatchesAux fuel afterGt
          | none => reMatchesAux fuel rest
      | none => reMatchesAux fuel rest
    else reMatchesAux fuel rest

/-- All matches of `/<([^:]+?):([^>]*?)>/g` over the text, in order. -/
def reMatches (l : List Char) : List (String × String) := reMatchesAux l.length l

/-- JavaScript `Map.prototype.set` on an insertion-ordered association
list: overwrite in place if the key exists, append otherwise. -/
def mapSet (m : List (String × String)) (k v : String) : List (String × String) :=
  if m.any (fun p => p.1 = k) then
    m.map (fun p => if p.1 = k then (k, v) else p)
  else m ++ [(k, v)]

/-- Fold the regex matches into a JavaScript `Map`. -/
def toMap (l : List (String × String)) : List (String × String) :=
  l.foldl (fun m kv => mapSet m kv.1 kv.2) []

/-- Result of JavaScript `parseInt`: an integer, or `NaN` when the text
does not start with a digit.  `none` models `NaN`.  `parseNotebook`
passes `parseInt` results to `parseMetadataBlock` without an `isNaN`
guard (note-parser.ts:251-252), so `NaN` addresses are reachable. -/
abbrev JsNum := Option Int

/-- JavaScript `===` against an integer literal: false for `NaN`. -/
def jsNumEq (a : JsNum) (b : Int) : Bool :=
  match a with
  | none => false
  | some x => decide (x = b)

/-- JavaScript `<` against an integer value: false for `NaN`. -/
def jsNumLt (a : JsNum) (b : Int) : Bool :=
  match a with
  | none => false
  | some x => decide (x < b)

/-- JavaScript `>` against an integer value: false for `NaN`. -/
def jsNumGt (a : JsNum) (b : Int) : Bool :=
  match a with
  | none => false
  | some x => decide (b < x)

/-- Function `parseMetadataBlock` (note-parser.ts:149-179): address 0 is
the "no metadata" sentinel; a negative or too-large address, or a zero /
too-large block length, degrade to an empty record with a console
warning; otherwise read the length-prefixed block and extract all
`<key:value>` matches.  A `NaN` address slips through both guards
(every comparison with `NaN` is false), `reader.seek(NaN)` does not
throw (`NaN < 0` and `NaN > length` are both false, leaving the cursor
at `NaN`), and `readU32LE` then throws because `checkBounds(NaN, 4)`
(`NaN >= 0 && NaN + 4 <= length`) is false. -/
def parseMetadataBlock (data : List Nat) (address : JsNum) :
    Except String (List (String × String)) :=
  if jsNumEq address 0 then .ok []
  else if jsNumLt address 0 || jsNumGt address ((data.length : Int) - 4) then .ok []
  else
    match address with
    | none =>
      .error ("Read U32 out of bounds: pos=NaN, fileLength=" ++ Nat.repr data.length)
    | some addr =>
      match readU32E data addr.toNat with
      | .error e => .error e
      | .ok blockLen =>
        if blockLen = 0 ∨ (data.length : Int) - addr - 4 < (blockLen : Int) then
          .ok []
        else
          match readStringE data (addr.toNat + 4) blockLen with
          | .error e => .error e
          | .ok content => .ok (toMap (reMatches content.data))

/-! ## PDF emission (`buildPDF`, note-parser.ts:501-584)

`buildPDF` writes text chunks through `TextEncoder` (UTF-8) while
tracking `byteOffset`, recording each object's start offset in
`xrefOffsets`.  The embedding keeps the emitted byte stream (`out`) and
the recorded offsets (`xref`) in an `Emit` state; `mark` records the
current length, `wr` appends a chunk.  The deflate compressor (`pako`, an
external library) is a parameter, as is its output on each page image.
All emitted text is ASCII except the binary-marker comment in the
header, whose `\xE2\xE3\xCF\xD3` characters UTF-8-encode to two bytes
each, exactly as `TextEncoder` does. -/

/-- UTF-8 encoding of one character (what `TextEncoder` emits for one
code point). -/
def utf8Char (c : Char) : List Nat :=
  let n := c.toNat
  if n < 0x80 then [n]
  else if n < 0x800 then [0xC0 + n / 64, 0x80 + n % 64]
  else if n < 0x10000 then
    [0xE0 + n / 4096, 0x80 + (n / 64) % 64, 0x80 + n % 64]
  else
    [0xF0 + n / 262144, 0x80 + (n / 4096) % 64, 0x80 + (n / 64) % 64, 0x80 + n % 64]

/-- Encoding `TextEncoder.encode`: UTF-8 bytes of a string. -/
def utf8Str (s : String) : List Nat := (s.data.map utf8Char).flatten

/-- Output-unit page dimension: `Math.round(pixels * 72 / 150)`.
`pixels * 72 / 150 = 24 * pixels / 50` is never an exact half-integer
(`24 * pixels` is even, `25` odd), so round-half-up integer arithmetic
agrees with the double computation. -/
def pdfDim (pixels : Nat) : Nat := (pixels * 144 + 150) / 300

/-- Emitter state: the bytes written so far and the recorded object
offsets. -/
structure Emit where
  out : List Nat
  xref : List Nat
deriving Repr

/-- Operation `write(...)`: append a chunk (advancing `byteOffset` implicitly as
`out.length`). -/
def wr (e : Emit) (bytes : List Nat) : Emit := ⟨e.out ++ bytes, e.xref⟩

/-- Operation `xrefOffsets.push(byteOffset)`: record the current offset. -/
def mark (e : Emit) : Emit := ⟨e.out, e.xref ++ [e.out.length]⟩

/-- The PDF header line with the binary-marker comment. -/
def pdfHeader : String := "%PDF-1.7\n%\xE2\xE3\xCF\xD3\n"

/-- Object 1: the catalog. -/
def catalogObj : String := "1 0 obj\n<< /Type /Catalog /Pages 2 0 R >>\nendobj\n"

/-- The `/Kids` references `3 0 R, 6 0 R, ...` of the page tree. -/
def pageRefs (n : Nat) : String :=
  String.intercalate " " ((List.range n).map (fun i => Nat.repr (i * 3 + 3) ++ " 0 R"))

/-- Object 2: the page tree. -/
def pagesObj (n : Nat) : String :=
  "2 0 obj\n<< /Type /Pages /Kids [ " ++ pageRefs n ++ " ] /Count " ++
  Nat.repr n ++ " >>\nendobj\n"

/-- A page object (ids: page `i*3+3`, contents `i*3+4`, image `i*3+5`). -/
def pageObjStr (pageObjId pdfWidth pdfHeight : Nat) : String :=
  Nat.repr pageObjId ++ " 0 obj\n<< /Type /Page\n   /Parent 2 0 R\n   /MediaBox [0 0 " ++
  Nat.repr pdfWidth ++ " " ++ Nat.repr pdfHeight ++ "]\n   /Contents " ++
  Nat.repr (pageObjId + 1) ++ " 0 R\n   /Resources << /XObject << /Im1 " ++
  Nat.repr (pageObjId + 2) ++ " 0 R >> >>\n>>\nendobj\n"

/-- The four-line content stream scaling the image to the page. -/
def contentsStr (pdfWidth pdfHeight : Nat) : String :=
  "q\n" ++ Nat.repr pdfWidth ++ " 0 0 " ++ Nat.repr pdfHeight ++ " 0 0 cm\n/Im1 Do\nQ\n"

/-- A contents object (`/Length` is the ASCII stream's length). -/
def contentsObjStr (contentsObjId pdfWidth pdfHeight : Nat) : String :=
  Nat.repr contentsObjId ++ " 0 obj\n<< /Length " ++
  Nat.repr (contentsStr pdfWidth pdfHeight).length ++ " >>\nstream\n" ++
  contentsStr pdfWidth pdfHeight ++ "\nendstream\nendobj\n"

/-- The text before an image object's compressed bytes. -/
def imageObjHead (imageObjId width height clen : Nat) : String :=
  Nat.repr imageObjId ++
  " 0 obj\n<< /Type /XObject\n   /Subtype /Image\n   /Width " ++ Nat.repr width ++
  "\n   /Height " ++ Nat.repr height ++
  "\n   /ColorSpace /DeviceRGB\n   /BitsPerComponent 8\n   /Filter /FlateDecode\n   /Length " ++
  Nat.repr clen ++ " >>\nstream\n"

/-- The page loop of `buildPDF` (note-parser.ts:534-556): for page `i`
emit the page object, the contents object, and the image object (header
text, deflated pixels, stream/object trailer), marking each object's
offset first. -/
def emitPages (deflate : List Nat → List Nat) (width height pdfWidth pdfHeight : Nat) :
    List (List Nat) → Nat → Emit → Emit
  | [], _, e => e
  | img :: rest, i, e =>
    let pageObjId := i * 3 + 3
    let compressedPixels := deflate img
    let e1 := wr (mark e) (utf8Str (pageObjStr pageObjId pdfWidth pdfHeight))
    let e2 := wr (mark e1) (utf8Str (contentsObjStr (pageObjId + 1) pdfWidth pdfHeight))
    let e3 := wr (wr (wr (mark e2)
                 (utf8Str (imageObjHead (pageObjId + 2) width height compressedPixels.length)))
               compressedPixels)
              (utf8Str "\nendstream\nendobj\n")
    emitPages deflate width height pdfWidth pdfHeight rest (i + 1) e3

/-- Everything `buildPDF` writes before the cross-reference section:
header, catalog, page tree, and the per-page objects. -/
def buildPDFBody (deflate : List Nat → List Nat) (pageImages : List (List Nat))
    (width height : Nat) : Emit :=
  let pdfWidth := pdfDim width
  let pdfHeight := pdfDim height
  let e1 := wr ⟨[], []⟩ (utf8Str pdfHeader)
  let e2 := wr (mark e1) (utf8Str catalogObj)
  let e3 := wr (mark e2) (utf8Str (pagesObj pageImages.length))
  emitPages deflate width height pdfWidth pdfHeight pageImages 0 e3

/-- JavaScript `String.prototype.padStart(10, '0')`. -/
def padLeft10 (s : String) : String :=
  if 10 ≤ s.length then s else String.mk (List.replicate (10 - s.length) '0') ++ s

/-- One cross-reference entry line. -/
def xrefLine (offset : Nat) : String := padLeft10 (Nat.repr offset) ++ " 00000 n \n"

/-- The cross-reference section, trailer, `startxref` pointer and EOF
marker (note-parser.ts:558-572). -/
def pdfTail (xref : List Nat) (xrefStart : Nat) : List Nat :=
  utf8Str ("xref\n" ++ "0 " ++ Nat.repr (xref.length + 1) ++ "\n" ++
    "0000000000 65535 f \n" ++ String.join (xref.map xrefLine) ++
    "trailer\n" ++ "<< /Size " ++ Nat.repr (xref.length + 1) ++ " /Root 1 0 R >>\n" ++
    "startxref\n" ++ Nat.repr xrefStart ++ "\n" ++ "%%EOF\n")

/-- Function `buildPDF`: the body followed by the cross-reference section, whose
own offset (`xrefStart`) is the body's length. -/
def buildPDF (deflate : List Nat → List Nat) (pageImages : List (List Nat))
    (width height : Nat) : List Nat :=
  let e := buildPDFBody deflate pageImages width height
  e.out ++ pdfTail e.xref e.out.length

end NoteParser

namespace NoteParser

/-! ### Sanity checks: the embedded functions evaluate as the source does
on concrete inputs. -/

theorem sanity_decodeRLE_pad : decodeRLE [] 2 2 = [0x62, 0x62, 0x62, 0x62] := by decide

theorem sanity_decodeRLE_trailing_escape_cap :
    decodeRLE [0x61, 0x02, 0x65, 0x80] 2 2 = [0x61, 0x61, 0x61, 0x65] := by decide

theorem sanity_initialCanvas : initialCanvas 1 2 = [255, 255, 255, 255, 255, 255, 255, 255] := by decide

theorem sanity_renderPage_empty :
    renderPage (fun _ _ _ => none) [] ⟨0, []⟩ 1 1 = .ok [255, 255, 255, 255] := rfl

theorem sanity_blendChannel : blendChannel 0 255 128 = 127 := by decide

theorem sanity_decodeUTF8_two_byte :
    decodeUTF8 [0x41, 0xC3, 0xA2, 0x42] = ['A', Char.ofNat 0xE2, 'B'] := by decide

theorem sanity_decodeUTF8_truncated :
    decodeUTF8 [0x41, 0xC3] = ['A', replChar] := by decide

theorem sanity_reMatches_two : reMatches "<A:1><B:2>".data = [("A", "1"), ("B", "2")] := by decide

theorem sanity_reMatches_lazy : reMatches "<x>:<a:b>".data = [("x>", "<a:b")] := by decide

theorem sanity_reMatches_advance : reMatches "<:<K:v>x".data = [("K", "v")] := by decide

theorem sanity_parseMetadataBlock_content :
    parseMetadataBlock
      ([0, 10, 0, 0, 0] ++ (String.toList "<PAGE1:77>").map Char.toNat) (some 1) =
      .ok [("PAGE1", "77")] := rfl

theorem sanity_pdfHeader_length : (utf8Str pdfHeader).length = 19 := by decide

theorem sanity_buildPDFBody_offsets :
    (buildPDFBody (fun x => x) [] 1 1).xref = [19, 68] := by decide

theorem sanity_xrefLine : xrefLine 19 = "0000000019 00000 n \n" := by decide

end NoteParser

namespace NoteParser

/-! ## Claims about the run-length decoder -/

/-- C1: For every input byte sequence and every width/height pair,
`decodeRLE` returns a raster of exactly `width * height` pixels: a short
decoded output is padded with the transparent color code `0x62`, a long
one is truncated.  (`decodeRLE` is a total function of its input, so no
input — malformed trailing data included — causes an error.) -/
theorem decodeRLE_always_full_raster (data : List Nat) (w h : Nat) :
    (decodeRLE data w h).length = w * h
    ∧ ((decodeRLEraw data (w * h)).length ≤ w * h →
        decodeRLE data w h =
          decodeRLEraw data (w * h) ++
            List.replicate (w * h - (decodeRLEraw data (w * h)).length) 0x62)
    ∧ (w * h ≤ (decodeRLEraw data (w * h)).length →
        decodeRLE data w h = (decodeRLEraw data (w * h)).take (w * h)) := by
  refine ⟨?_, ?_, ?_⟩
  · simp only [decodeRLE, List.length_append, List.length_take, List.length_replicate]
    omega
  · intro hle
    simp only [decodeRLE, List.take_of_length_le hle]
  · intro hge
    have : w * h - (decodeRLEraw data (w * h)).length = 0 := by omega
    simp only [decodeRLE, this, List.replicate_zero, List.append_nil]

/-- Witness for C1: padding on an empty input, truncation on an
over-long run. -/
theorem decodeRLE_always_full_raster_witness :
    (decodeRLE [] 1 1 =
      decodeRLEraw [] (1 * 1) ++
        List.replicate (1 * 1 - (decodeRLEraw [] (1 * 1)).length) 0x62)
    ∧ decodeRLE [0x61, 0x04] 1 2 = (decodeRLEraw [0x61, 0x04] (1 * 2)).take (1 * 2) :=
  ⟨(decodeRLE_always_full_raster [] 1 1).2.1 (by decide),
   (decodeRLE_always_full_raster [0x61, 0x04] 1 2).2.2 (by decide)⟩

/-- C2 counterexample: On `(0x61, 0x85)` then `(0x61, 0x03)` the
decoded run (before padding) has 772 pixels, not the 650 the claim
computes: `1 + 3 + (((0x85 & 0x7F) + 1) << 7) = 772 ≠ 650`. -/
theorem decodeRLE_escape_same_color_cex :
    (decodeRLEraw [0x61, 0x85, 0x61, 0x03] 0).length = 772
    ∧ decodeRLEraw [0x61, 0x85, 0x61, 0x03] 0 ≠ List.replicate 650 0x61 := by
  constructor
  · decide
  · decide

/-- C2 amended: On `(0x61, 0x85)` then `(0x61, 0x03)` (same color
on both sides of a pending escape) the resolved run length is
`1 + 3 + (((0x85 & 0x7F) + 1) << 7) = 1 + 3 + 768 = 772`: the output
before padding is exactly 772 consecutive pixels of color `0x61`,
whatever the expected raster size. -/
theorem decodeRLE_escape_same_color (expectedLen : Nat) :
    decodeRLEraw [0x61, 0x85, 0x61, 0x03] expectedLen = List.replicate 772 0x61 := rfl

/-- C3 counterexample: On `(0x61, 0x85)` then `(0x65, 0x03)` the
flushed escape run has 768 pixels of `0x61`, not 640:
`((0x85 & 0x7F) + 1) << 7 = 768 ≠ 640`. -/
theorem decodeRLE_escape_flush_cex :
    (decodeRLEraw [0x61, 0x85, 0x65, 0x03] 0).length = 772
    ∧ decodeRLEraw [0x61, 0x85, 0x65, 0x03] 0 ≠
        List.replicate 640 0x61 ++ List.replicate 4 0x65 := by
  constructor
  · decide
  · decide

/-- C3 amended: On `(0x61, 0x85)` then `(0x65, 0x03)` (a pending
escape resolved by a different color) the output before padding is
`((0x85 & 0x7F) + 1) << 7 = 768` pixels of `0x61` immediately followed by
`3 + 1 = 4` pixels of `0x65`, whatever the expected raster size. -/
theorem decodeRLE_escape_flush (expectedLen : Nat) :
    decodeRLEraw [0x61, 0x85, 0x65, 0x03] expectedLen =
      List.replicate 768 0x61 ++ List.replicate 4 0x65 := rfl

/-- The decode loop ignores a final unpaired byte: on an odd-length
input it behaves as on the input with the last byte removed. -/
theorem decodeRLEruns_dropLast :
    ∀ (holder : Option (Nat × Nat)) (data : List Nat), data.length % 2 = 1 →
      decodeRLEruns holder data = decodeRLEruns holder data.dropLast := by
  intro holder data
  induction holder, data using decodeRLEruns.induct with
  | case1 l rest pc pl ih =>
    intro hodd
    simp only [List.length_cons] at hodd
    have hrodd : rest.length % 2 = 1 := by omega
    obtain ⟨x, xs, rfl⟩ : ∃ x xs, rest = x :: xs := by
      cases rest with
      | nil => simp at hrodd
      | cons x xs => exact ⟨x, xs, rfl⟩
    simp only [List.dropLast, decodeRLEruns, if_pos rfl]
    rw [ih hrodd]
  | case2 c l rest pc pl hne ih =>
    intro hodd
    simp only [List.length_cons] at hodd
    have hrodd : rest.length % 2 = 1 := by omega
    obtain ⟨x, xs, rfl⟩ : ∃ x xs, rest = x :: xs := by
      cases rest with
      | nil => simp at hrodd
      | cons x xs => exact ⟨x, xs, rfl⟩
    simp only [List.dropLast, decodeRLEruns, if_neg hne]
    rw [ih hrodd]
  | case3 c rest ih =>
    intro hodd
    simp only [List.length_cons] at hodd
    have hrodd : rest.length % 2 = 1 := by omega
    obtain ⟨x, xs, rfl⟩ : ∃ x xs, rest = x :: xs := by
      cases rest with
      | nil => simp at hrodd
      | cons x xs => exact ⟨x, xs, rfl⟩
    simp only [List.dropLast, decodeRLEruns]
    rw [ih hrodd]
    simp only [if_true]
  | case4 c l rest hne hbit ih =>
    intro hodd
    simp only [List.length_cons] at hodd
    have hrodd : rest.length % 2 = 1 := by omega
    obtain ⟨x, xs, rfl⟩ : ∃ x xs, rest = x :: xs := by
      cases rest with
      | nil => simp at hrodd
      | cons x xs => exact ⟨x, xs, rfl⟩
    simp only [List.dropLast, decodeRLEruns, if_neg hne, if_pos hbit]
    exact ih hrodd
  | case5 c l rest hne hbit ih =>
    intro hodd
    simp only [List.length_cons] at hodd
    have hrodd : rest.length % 2 = 1 := by omega
    obtain ⟨x, xs, rfl⟩ : ∃ x xs, rest = x :: xs := by
      cases rest with
      | nil => simp at hrodd
      | cons x xs => exact ⟨x, xs, rfl⟩
    simp only [List.dropLast, decodeRLEruns, if_neg hne, if_neg hbit]
    rw [ih hrodd]
  | case6 t holder hno =>
    intro hodd
    cases t with
    | nil => simp at hodd
    | cons x t' =>
      cases t' with
      | nil => simp [decodeRLEruns, List.dropLast]
      | cons y t'' => exact absurd rfl (hno x y t'')

/-- C9: If the compressed input has odd length, the final unpaired
byte contributes nothing: `decodeRLE` gives the same raster as on the
input with the last byte removed. -/
theorem decodeRLE_ignores_odd_tail_byte (data : List Nat) (w h : Nat)
    (hodd : data.length % 2 = 1) :
    decodeRLE data w h = decodeRLE data.dropLast w h := by
  have hruns := decodeRLEruns_dropLast none data hodd
  simp only [decodeRLE, decodeRLEraw, hruns]

/-- Witness for C9 at the concrete input `[0x61, 0x00, 0x99]`. -/
theorem decodeRLE_ignores_odd_tail_byte_witness :
    decodeRLE [0x61, 0x00, 0x99] 2 1 = decodeRLE ([0x61, 0x00, 0x99].dropLast) 2 1 :=
  decodeRLE_ignores_odd_tail_byte [0x61, 0x00, 0x99] 2 1 (by decide)

/-! ## Claims about the compositor -/

theorem buildPixels_length (f : Nat → List Nat) (hf : ∀ i, (f i).length = 4) :
    ∀ n, (buildPixels f n).length = 4 * n := by
  intro n
  induction n with
  | zero => rfl
  | succ m ih =>
    simp only [buildPixels, List.length_append, ih, hf m]
    omega

theorem buildPixels_getD (f : Nat → List Nat) (hf : ∀ i, (f i).length = 4)
    (n i c : Nat) (hi : i < n) (hc : c < 4) :
    (buildPixels f n).getD (4 * i + c) 0 = (f i).getD c 0 := by
  induction n with
  | zero => omega
  | succ m ih =>
    rw [buildPixels]
    by_cases h : i < m
    · rw [List.getD_append]
      · exact ih h
      · rw [buildPixels_length f hf m]; omega
    · have him : i = m := by omega
      subst him
      rw [List.getD_append_right]
      · rw [buildPixels_length f hf]
        congr 1
        omega
      · rw [buildPixels_length f hf]; omega

theorem buildPixels_congr (f g : Nat → List Nat) (n : Nat) (h : ∀ i < n, f i = g i) :
    buildPixels f n = buildPixels g n := by
  induction n with
  | zero => rfl
  | succ m ih =>
    rw [buildPixels, buildPixels, ih (fun i hi => h i (by omega)), h m (by omega)]

/-- C8: Compositing a layer that is fully opaque at every pixel
(alpha byte 255 everywhere) onto any canvas yields exactly that layer's
colors at every pixel, with full alpha — in particular the result is the
same for any two prior canvas contents. -/
theorem compositePNG_opaque_overwrite (lp : List Nat) (n : Nat)
    (halpha : ∀ i < n, lp.getD (4 * i + 3) 0 = 255) (canvas canvas₂ : List Nat) :
    compositePNG canvas lp n =
      buildPixels (fun i => [lp.getD (4 * i) 0, lp.getD (4 * i + 1) 0,
                             lp.getD (4 * i + 2) 0, 255]) n
    ∧ compositePNG canvas lp n = compositePNG canvas₂ lp n := by
  have key : ∀ cv : List Nat,
      compositePNG cv lp n =
        buildPixels (fun i => [lp.getD (4 * i) 0, lp.getD (4 * i + 1) 0,
                               lp.getD (4 * i + 2) 0, 255]) n := by
    intro cv
    apply buildPixels_congr
    intro i hi
    have ha := halpha i hi
    simp only [pngPixel]
    rw [ha]
    norm_num
  exact ⟨key canvas, (key canvas).trans (key canvas₂).symm⟩

/-- Witness for C8: a 2-pixel fully opaque layer composited over two
different canvases. -/
theorem compositePNG_opaque_overwrite_witness :
    compositePNG [0, 0, 0, 0, 0, 0, 0, 0] [1, 2, 3, 255, 4, 5, 6, 255] 2 =
      buildPixels (fun i => [[1, 2, 3, 255, 4, 5, 6, 255].getD (4 * i) 0,
                             [1, 2, 3, 255, 4, 5, 6, 255].getD (4 * i + 1) 0,
                             [1, 2, 3, 255, 4, 5, 6, 255].getD (4 * i + 2) 0, 255]) 2
    ∧ compositePNG [0, 0, 0, 0, 0, 0, 0, 0] [1, 2, 3, 255, 4, 5, 6, 255] 2 =
        compositePNG [9, 9, 9, 9, 9, 9, 9, 9] [1, 2, 3, 255, 4, 5, 6, 255] 2 :=
  compositePNG_opaque_overwrite [1, 2, 3, 255, 4, 5, 6, 255] 2 (by decide)
    [0, 0, 0, 0, 0, 0, 0, 0] [9, 9, 9, 9, 9, 9, 9, 9]

theorem rlePixel_length (canvas lp : List Nat) (i : Nat) :
    (rlePixel canvas lp i).length = 4 := by
  simp only [rlePixel, oldPixel]
  split_ifs <;> rfl

theorem pngPixel_length (canvas lp : List Nat) (i : Nat) :
    (pngPixel canvas lp i).length = 4 := by
  simp only [pngPixel, oldPixel]
  split_ifs <;> rfl

theorem rlePixel_alpha (canvas lp : List Nat) (i : Nat)
    (h : canvas.getD (4 * i + 3) 0 = 255) :
    (rlePixel canvas lp i).getD 3 0 = 255 := by
  simp only [rlePixel, oldPixel]
  split_ifs
  · exact h
  · rfl
  · exact h

theorem pngPixel_alpha (canvas lp : List Nat) (i : Nat)
    (h : canvas.getD (4 * i + 3) 0 = 255) :
    (pngPixel canvas lp i).getD 3 0 = 255 := by
  simp only [pngPixel, oldPixel]
  split_ifs
  · exact h
  · rfl
  · exact h

/-- Every pixel of the canvas (within the raster) keeps alpha 255 across
the processing of any single layer that succeeds. -/
theorem processLayer_preserves_alpha (png : List Nat → Nat → Nat → Option (List Nat))
    (data : List Nat) (w h : Nat) (canvas : List Nat) (layer : Layer)
    (canvas' : List Nat)
    (hok : processLayer png data w h canvas layer = .ok canvas')
    (hc : ∀ i < w * h, canvas.getD (4 * i + 3) 0 = 255) :
    ∀ i < w * h, canvas'.getD (4 * i + 3) 0 = 255 := by
  unfold processLayer at hok
  split at hok
  · cases hok; exact hc
  · split at hok
    · cases hok
    · split at hok
      · cases hok
      · split at hok
        · cases hok
        · split at hok
          · cases hok
            intro i hi
            rw [compositeRLE,
                buildPixels_getD _ (fun j => rlePixel_length canvas _ j) (w * h) i 3 hi
                  (by omega)]
            exact rlePixel_alpha canvas _ i (hc i hi)
          · split at hok
            · split at hok
              · cases hok
                intro i hi
                rw [compositePNG,
                    buildPixels_getD _ (fun j => pngPixel_length canvas _ j) (w * h) i 3 hi
                      (by omega)]
                exact pngPixel_alpha canvas _ i (hc i hi)
              · cases hok; exact hc
            · cases hok; exact hc

theorem renderLayers_preserves_alpha (png : List Nat → Nat → Nat → Option (List Nat))
    (data : List Nat) (w h : Nat) :
    ∀ (layers : List Layer) (canvas canvas' : List Nat),
      renderLayers png data w h canvas layers = .ok canvas' →
      (∀ i < w * h, canvas.getD (4 * i + 3) 0 = 255) →
      ∀ i < w * h, canvas'.getD (4 * i + 3) 0 = 255 := by
  intro layers
  induction layers with
  | nil =>
    intro canvas canvas' hok hc
    cases hok
    exact hc
  | cons layer rest ih =>
    intro canvas canvas' hok hc
    rw [renderLayers] at hok
    cases hp : processLayer png data w h canvas layer with
    | error e => rw [hp] at hok; cases hok
    | ok c1 =>
      rw [hp] at hok
      exact ih c1 canvas' hok (processLayer_preserves_alpha png data w h canvas layer c1 hp hc)

theorem initialCanvas_alpha (w h : Nat) :
    ∀ i < w * h, (initialCanvas w h).getD (4 * i + 3) 0 = 255 := by
  intro i hi
  rw [initialCanvas,
      buildPixels_getD (fun _ => [255, 255, 255, 255]) (fun _ => rfl) (w * h) i 3 hi
        (by omega)]
  rfl

/-- C10: Whenever `renderPage` returns a raster, every pixel of it
has alpha exactly 255: the canvas starts fully opaque white and no
compositing branch writes any other alpha value. -/
theorem renderPage_alpha_opaque (png : List Nat → Nat → Nat → Option (List Nat))
    (data : List Nat) (page : Page) (w h : Nat) (canvas : List Nat)
    (hok : renderPage png data page w h = .ok canvas) :
    ∀ i < w * h, canvas.getD (4 * i + 3) 0 = 255 :=
  renderLayers_preserves_alpha png data w h page.layers (initialCanvas w h) canvas hok
    (initialCanvas_alpha w h)

/-- Witness for C10: a page with one RATTA_RLE layer renders with alpha
255 at pixel 0. -/
theorem renderPage_alpha_opaque_witness :
    List.getD [0, 0, 0, 255, 0, 0, 0, 255] (4 * 0 + 3) 0 = 255 := by
  have hr : renderPage (fun _ _ _ => none)
      [0, 2, 0, 0, 0, 0x61, 0x01] ⟨0, [⟨"MAINLAYER", "RATTA_RLE", 1⟩]⟩ 2 1 =
      .ok [0, 0, 0, 255, 0, 0, 0, 255] := rfl
  exact renderPage_alpha_opaque (fun _ _ _ => none) [0, 2, 0, 0, 0, 0x61, 0x01]
    ⟨0, [⟨"MAINLAYER", "RATTA_RLE", 1⟩]⟩ 2 1 [0, 0, 0, 255, 0, 0, 0, 255] hr 0
    (by decide)

/-- C7 counterexample: An unknown-protocol layer does not always
leave `renderPage` error-free: the bitmap block is read *before* the
protocol tag is inspected, so an unknown layer whose bitmap address is
out of bounds aborts the page with a seek error. -/
theorem renderPage_unknown_protocol_cex :
    (renderPage (fun _ _ _ => none) [0, 0, 0, 0]
      ⟨0, [⟨"MAINLAYER", "FOO", 50⟩]⟩ 1 1).isOk = false := rfl

/-- C7 amended: A layer whose protocol tag is neither `RATTA_RLE`
nor `PNG` never alters the canvas: whenever processing it does not abort
(its bitmap address is 0, or its block header and data are in bounds) it
returns the canvas unchanged. -/
theorem processLayer_unknown_protocol_skips (png : List Nat → Nat → Nat → Option (List Nat))
    (data : List Nat) (w h : Nat) (canvas : List Nat) (layer : Layer)
    (hp1 : layer.protocol ≠ "RATTA_RLE") (hp2 : layer.protocol ≠ "PNG")
    (hok : (processLayer png data w h canvas layer).isOk = true) :
    processLayer png data w h canvas layer = .ok canvas := by
  obtain ⟨c', hc'⟩ : ∃ c', processLayer png data w h canvas layer = .ok c' := by
    cases hres : processLayer png data w h canvas layer with
    | error e => rw [hres] at hok; simp [Except.isOk, Except.toBool] at hok
    | ok c => exact ⟨c, rfl⟩
  suffices hcc : c' = canvas by rw [hc', hcc]
  unfold processLayer at hc'
  simp only [hp1, hp2, if_false] at hc'
  split at hc'
  · cases hc'; rfl
  · split at hc'
    · cases hc'
    · split at hc'
      · cases hc'
      · split at hc'
        · cases hc'
        · cases hc'; rfl

/-- Witness for C7's amended theorem: an unknown-protocol layer with an
in-bounds 1-byte bitmap block leaves the canvas untouched. -/
theorem processLayer_unknown_protocol_skips_witness :
    processLayer (fun _ _ _ => none) [0, 1, 0, 0, 0, 77] 1 1 [9, 9, 9, 9]
      ⟨"k", "FOO", 1⟩ = .ok [9, 9, 9, 9] :=
  processLayer_unknown_protocol_skips (fun _ _ _ => none) [0, 1, 0, 0, 0, 77] 1 1
    [9, 9, 9, 9] ⟨"k", "FOO", 1⟩ (by decide) (by decide) (by rfl)

/-! ## Claims about validation and metadata resolution -/

theorem getSignatureE_of_ge (data : List Nat) (hlen : 24 ≤ data.length) :
    getSignatureE data = .ok (String.mk (decodeUTF8 ((data.drop 4).take 20))) := by
  unfold getSignatureE readStringE readBytesE
  rw [if_pos (by omega), if_pos (by omega)]
  rfl

theorem validateNoteFile_small (data : List Nat) (hlt : data.length < 100) :
    validateNoteFile data =
      .error (if data.length = 0 then emptyFileMsg else tooSmallMsg data.length) := by
  unfold validateNoteFile
  by_cases h0 : data.length = 0
  · rw [if_pos h0, if_pos h0]
  · rw [if_neg h0, if_pos hlt, if_neg h0]

theorem validateNoteFile_of_ge (data : List Nat) (h100 : 100 ≤ data.length) :
    validateNoteFile data =
      (if signatureValid data = true then .ok ()
       else
         if jsIncludes (jsToLower (String.mk (decodeUTF8 (data.take (min 50 data.length)))))
              "<!doctype" ∨
            jsIncludes (jsToLower (String.mk (decodeUTF8 (data.take (min 50 data.length)))))
              "<html" then
           .error htmlMsg
         else .error (invalidSigMsg (String.mk (decodeUTF8 ((data.drop 4).take 20))))) := by
  unfold validateNoteFile
  rw [if_neg (by omega), if_neg (by omega), getSignatureE_of_ge data (by omega)]
  rfl

/-- C5: Any buffer shorter than 100 bytes is rejected by a size error
(emitted before the signature is inspected), and for buffers of at least
100 bytes validation succeeds exactly when the 20 bytes starting at
offset 4 begin with one of the three recognized signature prefixes —
rejection depends only on the length and the signature area, and no
value other than the error is produced. -/
theorem validateNoteFile_signature_gate (data : List Nat) :
    (data.length < 100 →
      validateNoteFile data =
        .error (if data.length = 0 then emptyFileMsg else tooSmallMsg data.length))
    ∧ ((validateNoteFile data).isOk = true ↔
        100 ≤ data.length ∧ signatureValid data = true) := by
  refine ⟨validateNoteFile_small data, ?_, ?_⟩
  · intro hok
    by_cases h100 : 100 ≤ data.length
    · refine ⟨h100, ?_⟩
      rw [validateNoteFile_of_ge data h100] at hok
      by_cases hsig : signatureValid data = true
      · exact hsig
      · rw [if_neg hsig] at hok
        split at hok <;> simp [Except.isOk, Except.toBool] at hok
    · rw [validateNoteFile_small data (by omega)] at hok
      simp [Except.isOk, Except.toBool] at hok
  · rintro ⟨h100, hsig⟩
    rw [validateNoteFile_of_ge data h100, if_pos hsig]
    rfl

/-- Witness for C5: a 50-byte buffer is rejected with the size error; a
100-byte buffer with a recognized signature is accepted. -/
theorem validateNoteFile_signature_gate_witness :
    validateNoteFile (List.replicate 50 0) =
      .error (if (List.replicate (α := Nat) 50 0).length = 0 then emptyFileMsg
              else tooSmallMsg (List.replicate (α := Nat) 50 0).length)
    ∧ (validateNoteFile goodNoteFile).isOk = true :=
  ⟨(validateNoteFile_signature_gate (List.replicate 50 0)).1 (by decide),
   (validateNoteFile_signature_gate goodNoteFile).2.mpr ⟨by decide, by decide⟩⟩

/-- C6 counterexample: resolving a metadata record CAN raise an error: a
`NaN` address (reachable from the unguarded `parseInt` in
`parseNotebook`'s layer loop) passes both guards — every comparison with
`NaN` is false — survives `seek`, and then throws in `readU32LE`
instead of returning an empty record. -/
theorem parseMetadataBlock_nan_cex :
    parseMetadataBlock [0, 0, 0, 0] none =
      .error ("Read U32 out of bounds: pos=NaN, fileLength=" ++ Nat.repr 4) := rfl

/-- C6 amended: for every buffer and every *integer* address, resolving
a metadata record returns without error: address 0 returns an empty
record (the "no metadata" sentinel), and a negative address, an address
leaving no room for the 4-byte length prefix, or a zero-or-too-large
block length also return an empty record (with only a console warning).
The one exception is a `NaN` address, on which every guard comparison is
false and `readU32LE` throws. -/
theorem parseMetadataBlock_graceful (data : List Nat) (address : Int) :
    (∃ r, parseMetadataBlock data (some address) = .ok r)
    ∧ (address = 0 → parseMetadataBlock data (some address) = .ok [])
    ∧ ((address < 0 ∨ (data.length : Int) - 4 < address) →
        parseMetadataBlock data (some address) = .ok [])
    ∧ (0 < address → address ≤ (data.length : Int) - 4 →
        (u32le data address.toNat = 0 ∨
         (data.length : Int) - address - 4 < (u32le data address.toNat : Int)) →
        parseMetadataBlock data (some address) = .ok [])
    ∧ parseMetadataBlock data none =
        .error ("Read U32 out of bounds: pos=NaN, fileLength=" ++ Nat.repr data.length) := by
  have he : (jsNumEq (some address) 0 = true) ↔ address = 0 := by
    simp [jsNumEq]
  have hg : ((jsNumLt (some address) 0
        || jsNumGt (some address) ((data.length : Int) - 4)) = true)
      ↔ (address < 0 ∨ (data.length : Int) - 4 < address) := by
    simp [jsNumLt, jsNumGt]
  unfold parseMetadataBlock
  by_cases h0 : address = 0
  · rw [if_pos (he.mpr h0)]
    exact ⟨⟨[], rfl⟩, fun _ => rfl, fun _ => rfl, fun _ _ _ => rfl, rfl⟩
  · rw [if_neg (fun hc => h0 (he.mp hc))]
    by_cases hbad : address < 0 ∨ (data.length : Int) - 4 < address
    · rw [if_pos (hg.mpr hbad)]
      refine ⟨⟨[], rfl⟩, fun h => absurd h h0, fun _ => rfl, ?_, rfl⟩
      intro hpos hle _
      rcases hbad with hneg | hbig
      · omega
      · omega
    · rw [if_neg (fun hc => hbad (hg.mp hc))]
      dsimp only
      push_neg at hbad
      have hpos : 0 < address := by omega
      have hb : address.toNat + 4 ≤ data.length := by omega
      rw [readU32E, if_pos hb]
      dsimp only
      refine ⟨?_, fun h => absurd h h0, fun h => absurd h (by push_neg; exact hbad), ?_, rfl⟩
      · by_cases hblk : u32le data address.toNat = 0 ∨
            (data.length : Int) - address - 4 < (u32le data address.toNat : Int)
        · exact ⟨[], by rw [if_pos hblk]⟩
        · rw [if_neg hblk]
          push_neg at hblk
          have hsb : address.toNat + 4 + u32le data address.toNat ≤ data.length := by
            omega
          rw [readStringE, readBytesE, if_pos hsb]
          exact ⟨_, rfl⟩
      · intro _ _ hblk
        rw [if_pos hblk]

/-- Witness for C6's amended theorem: the sentinel address, a negative
address, and a zero block length each yield the empty record. -/
theorem parseMetadataBlock_graceful_witness :
    parseMetadataBlock [] (some 0) = .ok []
    ∧ parseMetadataBlock [] (some (-1)) = .ok []
    ∧ parseMetadataBlock [9, 0, 0, 0, 0] (some 1) = .ok [] :=
  ⟨(parseMetadataBlock_graceful [] 0).2.1 rfl,
   (parseMetadataBlock_graceful [] (-1)).2.2.1 (by decide),
   (parseMetadataBlock_graceful [9, 0, 0, 0, 0] 1).2.2.2.1 (by decide) (by decide)
     (by decide)⟩

/-! ## Claims about the PDF emitter

The key invariant: every recorded cross-reference offset points at the
start of the declaration text `"N 0 obj"` of object `N` (where `N` is
one more than the entry's index), and offsets stay valid as the stream
only ever grows by appending. -/

/-- The declaration text of the object recorded at cross-reference
index `j` (object number `j + 1`). -/
def objNeedle (j : Nat) : List Nat := utf8Str (Nat.repr (j + 1) ++ " 0 obj")

theorem utf8Str_append (a b : String) : utf8Str (a ++ b) = utf8Str a ++ utf8Str b := by
  simp [utf8Str, String.data_append]

theorem utf8Str_mono {p s : String} (h : p.data <+: s.data) :
    utf8Str p <+: utf8Str s := by
  obtain ⟨t, ht⟩ := h
  refine ⟨(t.map utf8Char).flatten, ?_⟩
  rw [utf8Str, utf8Str, ← ht]
  simp

theorem prefix_append_both {α : Type} (a : List α) {x y : List α} (h : x <+: y) :
    a ++ x <+: a ++ y := by
  obtain ⟨t, ht⟩ := h
  exact ⟨t, by rw [List.append_assoc, ht]⟩

theorem prefix_extend {α : Type} {x y : List α} (z : List α) (h : x <+: y) :
    x <+: y ++ z :=
  h.trans (List.prefix_append y z)

theorem objNeedle_congr (j id : Nat) (h : j + 1 = id) :
    objNeedle j = utf8Str (Nat.repr id ++ " 0 obj") := by
  rw [objNeedle, h]

theorem catalogObj_needle : objNeedle 0 <+: utf8Str catalogObj := by decide

theorem pagesObj_needle (n : Nat) : objNeedle 1 <+: utf8Str (pagesObj n) := by
  rw [objNeedle_congr 1 2 rfl]
  apply utf8Str_mono
  rw [show (Nat.repr 2 ++ " 0 obj" : String) = "2 0 obj" from by decide]
  simp only [pagesObj, String.data_append, List.append_assoc]
  exact prefix_extend _ (by decide)

theorem pageObjStr_needle (id pw ph : Nat) :
    utf8Str (Nat.repr id ++ " 0 obj") <+: utf8Str (pageObjStr id pw ph) := by
  apply utf8Str_mono
  simp only [pageObjStr, String.data_append, List.append_assoc]
  exact prefix_append_both _ (prefix_extend _ (by decide))

theorem contentsObjStr_needle (id pw ph : Nat) :
    utf8Str (Nat.repr id ++ " 0 obj") <+: utf8Str (contentsObjStr id pw ph) := by
  apply utf8Str_mono
  simp only [contentsObjStr, String.data_append, List.append_assoc]
  exact prefix_append_both _ (prefix_extend _ (by decide))

theorem imageObjHead_needle (id w h clen : Nat) :
    utf8Str (Nat.repr id ++ " 0 obj") <+: utf8Str (imageObjHead id w h clen) := by
  apply utf8Str_mono
  simp only [imageObjHead, String.data_append, List.append_assoc]
  exact prefix_append_both _ (prefix_extend _ (by decide))

/-- Invariant of the emitter state: every recorded offset is within the
emitted stream and points at the declaration text of its object. -/
def GoodEmit (e : Emit) : Prop :=
  ∀ j o, e.xref[j]? = some o → o ≤ e.out.length ∧ objNeedle j <+: e.out.drop o

theorem drop_append_of_le {α : Type} (l₁ l₂ : List α) (n : Nat) (h : n ≤ l₁.length) :
    (l₁ ++ l₂).drop n = l₁.drop n ++ l₂ := by
  rw [List.drop_append_eq_append_drop]
  have h0 : n - l₁.length = 0 := by omega
  rw [h0, List.drop_zero]

/-- Appending more output preserves the invariant. -/
theorem GoodEmit_wr (e : Emit) (bytes : List Nat) (h : GoodEmit e) :
    GoodEmit (wr e bytes) := by
  intro j o hjo
  have h2 := h j o hjo
  refine ⟨?_, ?_⟩
  · have : (wr e bytes).out.length = e.out.length + bytes.length := by
      simp [wr]
    omega
  · rw [show (wr e bytes).out = e.out ++ bytes from rfl,
        drop_append_of_le _ _ _ h2.1]
    exact prefix_extend _ h2.2

/-- Recording the current offset and then writing an object whose bytes
start with its declaration text preserves the invariant. -/
theorem GoodEmit_obj (e : Emit) (bytes : List Nat) (h : GoodEmit e)
    (hs : objNeedle e.xref.length <+: bytes) : GoodEmit (wr (mark e) bytes) := by
  intro j o hjo
  have hx : (wr (mark e) bytes).xref = e.xref ++ [e.out.length] := rfl
  have ho : (wr (mark e) bytes).out = e.out ++ bytes := rfl
  rw [hx] at hjo
  by_cases hj : j < e.xref.length
  · rw [List.getElem?_append_left hj] at hjo
    have h2 := h j o hjo
    refine ⟨?_, ?_⟩
    · have : (e.out ++ bytes).length = e.out.length + bytes.length := by simp
      rw [ho]
      omega
    · rw [ho, drop_append_of_le _ _ _ h2.1]
      exact prefix_extend _ h2.2
  · rw [List.getElem?_append_right (by omega)] at hjo
    rcases hk : j - e.xref.length with _ | k
    · rw [hk] at hjo
      simp only [List.getElem?_cons_zero, Option.some.injEq] at hjo
      have hje : j = e.xref.length := by omega
      subst hje
      refine ⟨?_, ?_⟩
      · rw [ho, ← hjo]
        simp
      · rw [ho, ← hjo, List.drop_left]
        exact hs
    · rw [hk] at hjo
      simp at hjo

theorem GoodEmit_obj_len (e : Emit) (bytes : List Nat) (h : GoodEmit e)
    (hs : objNeedle e.xref.length <+: bytes) :
    GoodEmit (wr (mark e) bytes) ∧ (wr (mark e) bytes).xref.length = e.xref.length + 1 :=
  ⟨GoodEmit_obj e bytes h hs, by simp [wr, mark]⟩

/-- The page loop preserves the invariant and adds three entries per
page, keeping object numbers aligned with entry indices. -/
theorem emitPages_good (deflate : List Nat → List Nat) (width height pw ph : Nat) :
    ∀ (imgs : List (List Nat)) (i : Nat) (e : Emit),
      GoodEmit e → e.xref.length = 3 * i + 2 →
      GoodEmit (emitPages deflate width height pw ph imgs i e)
      ∧ (emitPages deflate width height pw ph imgs i e).xref.length
          = 3 * (i + imgs.length) + 2 := by
  intro imgs
  induction imgs with
  | nil =>
    intro i e hg hl
    rw [emitPages]
    exact ⟨hg, by simpa using hl⟩
  | cons img rest ih =>
    intro i e hg hl
    rw [emitPages]
    obtain ⟨h1, h1l⟩ := GoodEmit_obj_len e (utf8Str (pageObjStr (i * 3 + 3) pw ph)) hg
      (by rw [objNeedle_congr e.xref.length (i * 3 + 3) (by omega)]
          exact pageObjStr_needle _ _ _)
    obtain ⟨h2, h2l⟩ := GoodEmit_obj_len _ (utf8Str (contentsObjStr (i * 3 + 3 + 1) pw ph)) h1
      (by rw [objNeedle_congr _ (i * 3 + 3 + 1) (by omega)]
          exact contentsObjStr_needle _ _ _)
    obtain ⟨h3, h3l⟩ := GoodEmit_obj_len _
      (utf8Str (imageObjHead (i * 3 + 3 + 2) width height (deflate img).length)) h2
      (by rw [objNeedle_congr _ (i * 3 + 3 + 2) (by omega)]
          exact imageObjHead_needle _ _ _ _)
    have h4 := GoodEmit_wr _ (deflate img) h3
    have h5 := GoodEmit_wr _ (utf8Str "\nendstream\nendobj\n") h4
    have h5l : (wr (wr (wr (mark (wr (mark (wr (mark e)
        (utf8Str (pageObjStr (i * 3 + 3) pw ph))))
        (utf8Str (contentsObjStr (i * 3 + 3 + 1) pw ph))))
        (utf8Str (imageObjHead (i * 3 + 3 + 2) width height (deflate img).length)))
        (deflate img)) (utf8Str "\nendstream\nendobj\n")).xref.length = 3 * (i + 1) + 2 := by
      simp only [wr, mark, List.length_append, List.length_singleton]
      omega
    obtain ⟨hgfin, hlfin⟩ := ih (i + 1) _ h5 h5l
    refine ⟨hgfin, ?_⟩
    rw [hlfin]
    simp only [List.length_cons]
    omega

/-- C4: The cross-reference table built by `buildPDF` records, for
every object `N` (at entry index `N - 1`), exactly the byte offset in the
emitted stream at which the declaration text `"N 0 obj"` begins; there
are `3 * pages + 2` objects (plus the index-0 free-list sentinel line
that `pdfTail` emits, which also names the total object count in the
trailer's `/Size` and the catalog as `/Root 1 0 R`); and the bytes from
`startxref`'s recorded offset (the body length) onwards are exactly the
cross-reference section. -/
theorem buildPDF_xref_offsets (deflate : List Nat → List Nat)
    (pageImages : List (List Nat)) (width height : Nat) :
    (buildPDFBody deflate pageImages width height).xref.length = 3 * pageImages.length + 2
    ∧ (∀ j o, (buildPDFBody deflate pageImages width height).xref[j]? = some o →
        utf8Str (Nat.repr (j + 1) ++ " 0 obj") <+:
          (buildPDF deflate pageImages width height).drop o)
    ∧ (buildPDF deflate pageImages width height).drop
          (buildPDFBody deflate pageImages width height).out.length =
        pdfTail (buildPDFBody deflate pageImages width height).xref
          (buildPDFBody deflate pageImages width height).out.length := by
  have hstart : GoodEmit (wr ⟨[], []⟩ (utf8Str pdfHeader)) := by
    intro j o hjo
    simp [wr] at hjo
  obtain ⟨hc, hcl⟩ := GoodEmit_obj_len _ (utf8Str catalogObj) hstart catalogObj_needle
  obtain ⟨hp, hpl⟩ := GoodEmit_obj_len _ (utf8Str (pagesObj pageImages.length)) hc
    (pagesObj_needle pageImages.length)
  have hB : GoodEmit (buildPDFBody deflate pageImages width height)
      ∧ (buildPDFBody deflate pageImages width height).xref.length
          = 3 * pageImages.length + 2 := by
    rw [buildPDFBody]
    have := emitPages_good deflate width height (pdfDim width) (pdfDim height)
      pageImages 0 _ hp (by rw [hpl, hcl]; simp [wr, mark])
    exact ⟨this.1, by rw [this.2]; omega⟩
  refine ⟨hB.2, ?_, ?_⟩
  · intro j o hjo
    have h2 := hB.1 j o hjo
    rw [buildPDF]
    rw [drop_append_of_le _ _ _ h2.1]
    exact prefix_extend _ h2.2
  · rw [buildPDF]
    exact List.drop_left _ _

/-- Witness for C4: in a one-page document built with the identity as
compressor, entry 0 records offset 19 (right after the header), where the
bytes `"1 0 obj"` begin. -/
theorem buildPDF_xref_offsets_witness :
    utf8Str (Nat.repr (0 + 1) ++ " 0 obj") <+:
      (buildPDF (fun x => x) [[0, 0, 0]] 1 1).drop 19 := by
  have h := (buildPDF_xref_offsets (fun x => x) [[0, 0, 0]] 1 1).2.1 0 19 (by decide)
  exact h

end NoteParser
